import Mathlib

/-!
Verification development for the lib-epub package model engine.

The definitions below are a shallow embedding of the Rust sources
(`src/utils.rs`, `src/epub.rs`, `src/builder.rs`): bytes are `Nat`s,
byte buffers are `List Nat`, filesystem paths are component lists,
`HashMap`s are association lists iterated in insertion order, and
fallible operations return `Except`/`Option`.
-/

/-- EPUB version tag (`types.rs`, `EpubVersion`). -/
inductive EpubVersion : Type where
  | Version2_0 : EpubVersion
  | Version3_0 : EpubVersion
deriving DecidableEq, Repr

/-- Builder-side errors (`error.rs`, `EpubBuilderError`), restricted to the
constructors reachable from the operations embedded in this file. -/
inductive EpubBuilderError : Type where
  | ManifestCircularReference : String → EpubBuilderError
  | ManifestNotFound : String → EpubBuilderError
  | TooManyNavFlags : EpubBuilderError
  | MissingRootfile : EpubBuilderError
deriving DecidableEq, Repr

/-- Errors of the reader (`error.rs`, `EpubError`), restricted to the
constructors reachable from the operations embedded in this file. -/
inductive EpubError : Type where
  | MissingRequiredAttribute : String → String → EpubError
  | NonCanonicalEpub : String → EpubError
  | NonCanonicalFile : String → EpubError
  | RealtiveLinkLeakage : String → EpubError
  | ResourceIdNotExist : String → EpubError
  | UnrecognizedEpubVersion : EpubError
  | NoSupportedFileFormat : EpubError
  | EpubBuilderError : EpubBuilderError → EpubError
deriving DecidableEq, Repr

/-- The byte-wise XOR loop shared by both font obfuscation transforms:
it models `for index in 0..limit { data[index] ^= keyAt(index) }` running
over a buffer whose head is at position `i`, leaving bytes at positions
`≥ limit` unchanged (`utils.rs`). -/
def xor_window (keyAt : Nat → Nat) (limit : Nat) : Nat → List Nat → List Nat
  | _, [] => []
  | i, b :: rest =>
      (if i < limit then b ^^^ keyAt i else b) :: xor_window keyAt limit (i + 1) rest

/-- IDPF font obfuscation (`utils.rs`, `idpf_font_encryption`): the SHA-1
digest of the key is cycled to fill a 1040-byte key and XORed over the
first `min 1040 data.length` bytes.  SHA-1 comes from an external crate,
so the digest function is passed in as the argument `sha1` (its real
instantiation always returns a 20-byte digest). -/
def idpf_font_encryption (sha1 : String → List Nat) (data : List Nat) (key : String) : List Nat :=
  if data = [] then []
  else
    let hash := sha1 key
    let key1040 := (List.range 1040).map (fun index => hash.getD (index % hash.length) 0)
    xor_window (fun index => key1040.getD index 0) (min 1040 data.length) 0 data

/-- Source `utils.rs`, `idpf_font_dencryption`: decryption is the same function. -/
def idpf_font_dencryption (sha1 : String → List Nat) (data : List Nat) (key : String) : List Nat :=
  idpf_font_encryption sha1 data key

/-- One iteration of the Adobe key-expansion loop body
`key_vec.extend_from_slice(key.as_bytes())` (`utils.rs`,
`adobe_font_encryption`). -/
def adobe_key_expansion_step (key : List Nat) (acc : List Nat) : List Nat :=
  acc ++ key

/-- The Adobe key-expansion loop `while key_vec.len() < 16 { ... }`
(`utils.rs`, `adobe_font_encryption`).  The source loop does not terminate
when `key` is empty (each iteration appends zero bytes); this total model
additionally exits the loop in that case, and theorem `C9` characterizes
the divergence through `adobe_key_expansion_step` directly. -/
def adobe_key_expansion (key : List Nat) (acc : List Nat) : List Nat :=
  if h : acc.length < 16 ∧ key ≠ [] then
    adobe_key_expansion key (adobe_key_expansion_step key acc)
  else acc
termination_by 16 - acc.length
decreasing_by
  simp only [adobe_key_expansion_step, List.length_append]
  have hk : 0 < key.length := List.length_pos.mpr h.2
  omega

/-- Adobe font obfuscation (`utils.rs`, `adobe_font_encryption`): the raw
unique-identifier bytes (`key.as_bytes()`, passed here as the byte list
`keyBytes`) are cycled to fill a 16-byte key which is XORed over the first
`min 1024 data.length` bytes using `index % 16`. -/
def adobe_font_encryption (data : List Nat) (keyBytes : List Nat) : List Nat :=
  if data = [] then []
  else
    let key_vec := adobe_key_expansion keyBytes keyBytes
    let key := key_vec.take (min 16 key_vec.length)
    xor_window (fun index => key.getD (index % 16) 0) (min 1024 data.length) 0 data

/-- Source `utils.rs`, `adobe_font_dencryption`: decryption is the same function. -/
def adobe_font_dencryption (data : List Nat) (keyBytes : List Nat) : List Nat :=
  adobe_font_encryption data keyBytes

lemma xor_window_length (keyAt : Nat → Nat) (limit i : Nat) (l : List Nat) :
    (xor_window keyAt limit i l).length = l.length := by
  induction l generalizing i with
  | nil => rfl
  | cons b rest ih => simp [xor_window, ih]

lemma xor_window_involutive (keyAt : Nat → Nat) (limit i : Nat) (l : List Nat) :
    xor_window keyAt limit i (xor_window keyAt limit i l) = l := by
  induction l generalizing i with
  | nil => rfl
  | cons b rest ih =>
      simp only [xor_window, ih]
      by_cases h : i < limit
      · simp [h, Nat.xor_assoc, Nat.xor_self, Nat.xor_zero]
      · simp [h]

lemma idpf_font_encryption_unfold (sha1 : String → List Nat)
    (data : List Nat) (key : String) (h : data ≠ []) :
    idpf_font_encryption sha1 data key =
      xor_window
        (fun index =>
          ((List.range 1040).map
            (fun index => (sha1 key).getD (index % (sha1 key).length) 0)).getD index 0)
        (min 1040 data.length) 0 data := by
  simp [idpf_font_encryption, h]

lemma idpf_font_encryption_involutive (sha1 : String → List Nat)
    (data : List Nat) (key : String) :
    idpf_font_encryption sha1 (idpf_font_encryption sha1 data key) key = data := by
  by_cases h : data = []
  · simp [idpf_font_encryption, h]
  · have hE := idpf_font_encryption_unfold sha1 data key h
    have hElen : (idpf_font_encryption sha1 data key).length = data.length := by
      rw [hE]; exact xor_window_length _ _ _ _
    have hEne : idpf_font_encryption sha1 data key ≠ [] := by
      intro hcon
      rw [hcon] at hElen
      exact h (List.length_eq_zero.mp hElen.symm)
    rw [idpf_font_encryption_unfold sha1 _ key hEne, hElen, hE]
    exact xor_window_involutive _ _ _ data

lemma adobe_font_encryption_unfold (data keyBytes : List Nat) (h : data ≠ []) :
    adobe_font_encryption data keyBytes =
      xor_window
        (fun index =>
          ((adobe_key_expansion keyBytes keyBytes).take
            (min 16 (adobe_key_expansion keyBytes keyBytes).length)).getD (index % 16) 0)
        (min 1024 data.length) 0 data := by
  simp [adobe_font_encryption, h]

lemma adobe_font_encryption_involutive (data keyBytes : List Nat) :
    adobe_font_encryption (adobe_font_encryption data keyBytes) keyBytes = data := by
  by_cases h : data = []
  · simp [adobe_font_encryption, h]
  · have hE := adobe_font_encryption_unfold data keyBytes h
    have hElen : (adobe_font_encryption data keyBytes).length = data.length := by
      rw [hE]; exact xor_window_length _ _ _ _
    have hEne : adobe_font_encryption data keyBytes ≠ [] := by
      intro hcon
      rw [hcon] at hElen
      exact h (List.length_eq_zero.mp hElen.symm)
    rw [adobe_font_encryption_unfold _ keyBytes hEne, hElen, hE]
    exact xor_window_involutive _ _ _ data

/-- C2: for both the IDPF and the Adobe font obfuscation transforms,
applying the transform twice with the same key reproduces the original
bytes, for every byte buffer (including buffers shorter than the 1040-
respectively 1024-byte transform window); hence encryption and decryption
share one function (`idpf_font_dencryption` / `adobe_font_dencryption`
simply call the encryption function).  The Adobe statement assumes a
non-empty key, the condition under which the source's key-expansion loop
terminates (theorem `C9`). -/
theorem C2 :
    (∀ (sha1 : String → List Nat) (data : List Nat) (key : String),
        idpf_font_dencryption sha1 (idpf_font_encryption sha1 data key) key = data)
    ∧ (∀ (data keyBytes : List Nat), keyBytes ≠ [] →
        adobe_font_dencryption (adobe_font_encryption data keyBytes) keyBytes = data) :=
  ⟨fun sha1 data key => idpf_font_encryption_involutive sha1 data key,
   fun data keyBytes _ => adobe_font_encryption_involutive data keyBytes⟩

/-- Witness for C2 at a concrete short buffer and non-empty key. -/
theorem C2_witness :
    adobe_font_dencryption (adobe_font_encryption [1, 2, 255] [97, 98]) [97, 98]
      = [1, 2, 255] :=
  C2.2 [1, 2, 255] [97, 98] (by decide)

/-- C9: the Adobe key-expansion loop terminates whenever the key is
non-empty (after finitely many iterations of the loop body the guard
`key_vec.len() < 16` fails), while for the empty key every iteration of
the loop body extends the key vector by zero bytes and the guard holds
after every number of iterations, i.e. the loop never exits (the source
function `adobe_font_encryption` reaches this loop exactly when `data`
is non-empty, so it never terminates there). -/
theorem C9 :
    (∀ keyBytes : List Nat, keyBytes ≠ [] →
        ∃ n, 16 ≤ ((adobe_key_expansion_step keyBytes)^[n] keyBytes).length)
    ∧ (∀ n : Nat,
        adobe_key_expansion_step [] ((adobe_key_expansion_step [])^[n] []) =
          (adobe_key_expansion_step [])^[n] [] ∧
        ((adobe_key_expansion_step [])^[n] []).length < 16) := by
  constructor
  · intro keyBytes hne
    have hpos : 0 < keyBytes.length := List.length_pos.mpr hne
    refine ⟨16, ?_⟩
    have hgrow : ∀ n : Nat,
        n * keyBytes.length + keyBytes.length ≤
          ((adobe_key_expansion_step keyBytes)^[n] keyBytes).length := by
      intro n
      induction n with
      | zero => simp
      | succ m ih =>
          rw [Function.iterate_succ_apply']
          simp only [adobe_key_expansion_step, List.length_append]
          calc (m + 1) * keyBytes.length + keyBytes.length
              = (m * keyBytes.length + keyBytes.length) + keyBytes.length := by ring
            _ ≤ ((adobe_key_expansion_step keyBytes)^[m] keyBytes).length
                  + keyBytes.length := by omega
    have h16 := hgrow 16
    have : 16 ≤ 16 * keyBytes.length + keyBytes.length := by nlinarith
    omega
  · intro n
    have hfix : (adobe_key_expansion_step [])^[n] [] = ([] : List Nat) := by
      induction n with
      | zero => rfl
      | succ m ih => rw [Function.iterate_succ_apply', ih]; rfl
    refine ⟨?_, ?_⟩
    · rw [hfix]; rfl
    · rw [hfix]; simp

/-- Witness for C9 at a concrete non-empty key. -/
theorem C9_witness :
    ∃ n, 16 ≤ ((adobe_key_expansion_step [7])^[n] [7]).length :=
  C9.1 [7] (by decide)

/-- A filesystem path as the Rust `PathBuf` behaves in this code base: an
absoluteness flag plus the list of normal components.  `epub.rs` only ever
builds paths from an absolute (canonicalized) epub path and the component
paths read from the package, so these two pieces of data determine every
operation the sources perform. -/
structure RPath : Type where
  absolute : Bool
  comps : List String
deriving DecidableEq, Repr

/-- Rust `PathBuf::join`: an absolute right operand replaces the left one,
otherwise the components are appended. -/
def RPath.join (p q : RPath) : RPath :=
  if q.absolute then q else ⟨p.absolute, p.comps ++ q.comps⟩

/-- Rust `PathBuf::pop` with the returned flag ignored (used by
`normalize_manifest_path` as `current_dir.pop();`): drops the last
component if any. -/
def RPath.popD (p : RPath) : RPath :=
  ⟨p.absolute, p.comps.dropLast⟩

/-- The pop loop of `check_realtive_link_leakage`
(`for _ in 0..folder_depth { if !current_path.pop() { return None } }`):
`PathBuf::pop` returns `false` exactly when there is no component left. -/
def popN (p : RPath) : Nat → Option RPath
  | 0 => some p
  | k + 1 =>
      match p.comps with
      | [] => none
      | _ :: _ => popN ⟨p.absolute, p.comps.dropLast⟩ k

/-- Rust `Path::strip_prefix`: succeeds iff the base is a component-wise
prefix (with matching absoluteness), returning the remaining components. -/
def stripRoot (base p : RPath) : Option (List String) :=
  if base.absolute = p.absolute ∧ p.comps.take base.comps.length = base.comps then
    some (p.comps.drop base.comps.length)
  else none

/-- Rust `str::starts_with` on `../`, at the character level. -/
def startsWithParentL : List Char → Bool
  | '.' :: '.' :: '/' :: _ => true
  | _ => false

/-- The counting loop of `check_realtive_link_leakage`
(`while remaining.starts_with("../") { folder_depth += 1; ... }`). -/
def countParentRefs : List Char → Nat
  | '.' :: '.' :: '/' :: rest => countParentRefs rest + 1
  | _ => 0

/-- The suffix left by the counting loop (`remaining = &remaining[3..]`). -/
def dropParentRefs : List Char → List Char
  | '.' :: '.' :: '/' :: rest => dropParentRefs rest
  | l => l

/-- Source `utils.rs`, `check_realtive_link_leakage`: count the leading `../`
segments, pop that many components from `epub_path.join(current_dir)`,
check the result is still under `epub_path`, and join the remaining
suffix (components rendered with `/` separators, as `format!` does). -/
def check_realtive_link_leakage (epub_path current_dir : RPath)
    (check_file : String) : Option String :=
  let folder_depth := countParentRefs check_file.toList
  let remaining := String.mk (dropParentRefs check_file.toList)
  match popN (epub_path.join current_dir) folder_depth with
  | none => none
  | some current_path =>
      match stripRoot epub_path current_path with
      | none => none
      | some comps =>
          some (if comps.isEmpty then remaining
                else String.intercalate "/" comps ++ "/" ++ remaining)

/-- Rendering of an `RPath` as `PathBuf::to_str` would produce it. -/
def RPath.render (p : RPath) : String :=
  (if p.absolute then "/" else "") ++ String.intercalate "/" p.comps

/-- String-level `PathBuf::join` of a relative reference onto a base
directory (the plain-reference branch of `normalize_manifest_path`). -/
def joinRender (base : RPath) (path : String) : String :=
  if base.comps.isEmpty then (if base.absolute then "/" ++ path else path)
  else RPath.render base ++ "/" ++ path

/-- Source `epub.rs`, `EpubDoc::normalize_manifest_path`: references starting
with `../` go through the containment guard with the package document's
directory as base (note the source computes it as
`epub_path.join(package_path)` followed by `pop()`); references starting
with `/` are container-root-relative; anything else joins onto
`base_path`.  The `cfg(windows)` separator replacement is omitted (the
model is the non-Windows build). -/
def normalize_manifest_path (epub_path package_path base_path : RPath)
    (path : String) : Except EpubError String :=
  if startsWithParentL path.toList then
    match check_realtive_link_leakage epub_path ((epub_path.join package_path).popD) path with
    | some s => Except.ok s
    | none => Except.error (EpubError.RealtiveLinkLeakage path)
  else
    match path.toList with
    | '/' :: rest => Except.ok (String.mk rest)
    | _ => Except.ok (joinRender base_path path)

/-- The character list of `k` consecutive `../` segments. -/
def parentChars : Nat → List Char
  | 0 => []
  | k + 1 => '.' :: '.' :: '/' :: parentChars k

lemma startsWithParentL_false_count {l : List Char}
    (h : startsWithParentL l = false) : countParentRefs l = 0 := by
  unfold countParentRefs
  split
  · rename_i rest
    simp [startsWithParentL] at h
  · rfl

lemma startsWithParentL_false_drop {l : List Char}
    (h : startsWithParentL l = false) : dropParentRefs l = l := by
  unfold dropParentRefs
  split
  · rename_i rest
    simp [startsWithParentL] at h
  · rfl

lemma countParentRefs_parentChars (k : Nat) {l : List Char}
    (h : startsWithParentL l = false) :
    countParentRefs (parentChars k ++ l) = k := by
  induction k with
  | zero => simpa [parentChars] using startsWithParentL_false_count h
  | succ m ih =>
      show countParentRefs ('.' :: '.' :: '/' :: (parentChars m ++ l)) = m + 1
      rw [show countParentRefs ('.' :: '.' :: '/' :: (parentChars m ++ l))
            = countParentRefs (parentChars m ++ l) + 1 from rfl, ih]

lemma dropParentRefs_parentChars (k : Nat) {l : List Char}
    (h : startsWithParentL l = false) :
    dropParentRefs (parentChars k ++ l) = l := by
  induction k with
  | zero => simpa [parentChars] using startsWithParentL_false_drop h
  | succ m ih =>
      show dropParentRefs ('.' :: '.' :: '/' :: (parentChars m ++ l)) = l
      rw [show dropParentRefs ('.' :: '.' :: '/' :: (parentChars m ++ l))
            = dropParentRefs (parentChars m ++ l) from rfl, ih]

lemma mk_toList (s : String) : String.mk s.toList = s := by
  cases s
  rfl

lemma popN_closed (abs : Bool) (l : List String) (k : Nat) :
    popN ⟨abs, l⟩ k =
      if k ≤ l.length then some ⟨abs, l.take (l.length - k)⟩ else none := by
  induction k generalizing l with
  | zero => simp [popN]
  | succ m ih =>
      cases l with
      | nil => simp [popN]
      | cons a as =>
          show popN ⟨abs, (a :: as).dropLast⟩ m = _
          rw [ih]
          have hlen : (a :: as).dropLast.length = as.length := by
            simp [List.length_dropLast]
          by_cases hm : m ≤ as.length
          · rw [if_pos (by omega : m ≤ (a :: as).dropLast.length),
              if_pos (by simp; omega)]
            have : (a :: as).dropLast.take ((a :: as).dropLast.length - m)
                = (a :: as).take ((a :: as).length - (m + 1)) := by
              rw [List.dropLast_eq_take, List.take_take]
              congr 1
              simp only [List.length_take, List.length_cons]
              omega
            rw [this]
          · rw [if_neg (by omega : ¬ m ≤ (a :: as).dropLast.length),
              if_neg (by simp; omega)]

lemma stripRoot_append (abs : Bool) (e x : List String) :
    stripRoot ⟨abs, e⟩ ⟨abs, e ++ x⟩ = some x := by
  simp [stripRoot, List.take_left, List.drop_left]

lemma stripRoot_take_lt (abs : Bool) (e : List String) (m : Nat)
    (h : m < e.length) : stripRoot ⟨abs, e⟩ ⟨abs, e.take m⟩ = none := by
  simp only [stripRoot]
  rw [if_neg]
  intro hcon
  have htake : (e.take m).take e.length = e.take m :=
    List.take_of_length_le (by simp only [List.length_take]; omega)
  rw [htake] at hcon
  have := congrArg List.length hcon.2
  simp at this
  omega

lemma check_link_general (e dir : List String) (k : Nat) (suffix : String)
    (hs : startsWithParentL suffix.toList = false) :
    check_realtive_link_leakage ⟨true, e⟩ ⟨true, e ++ dir⟩
        (String.mk (parentChars k ++ suffix.toList)) =
      if k ≤ dir.length then
        some (if (dir.take (dir.length - k)).isEmpty then suffix
              else String.intercalate "/" (dir.take (dir.length - k)) ++ "/" ++ suffix)
      else none := by
  have hjoin : RPath.join ⟨true, e⟩ ⟨true, e ++ dir⟩ = ⟨true, e ++ dir⟩ := rfl
  simp only [check_realtive_link_leakage,
    show (String.mk (parentChars k ++ suffix.toList)).toList
      = parentChars k ++ suffix.toList from rfl,
    countParentRefs_parentChars k hs, dropParentRefs_parentChars k hs,
    mk_toList, hjoin, popN_closed]
  by_cases hk : k ≤ dir.length
  · rw [if_pos (by simp only [List.length_append]; omega), if_pos hk]
    have htake : (e ++ dir).take ((e ++ dir).length - k)
        = e ++ dir.take (dir.length - k) := by
      rw [show (e ++ dir).length - k = e.length + (dir.length - k) by
        simp only [List.length_append]; omega]
      exact List.take_append _
    rw [htake]
    simp only [stripRoot_append]
  · by_cases hke : k ≤ e.length + dir.length
    · rw [if_pos (by simp only [List.length_append]; omega), if_neg hk]
      have hm : (e ++ dir).length - k < e.length := by
        simp only [List.length_append]; omega
      have htake : (e ++ dir).take ((e ++ dir).length - k)
          = e.take ((e ++ dir).length - k) :=
        List.take_append_of_le_length (by omega)
      rw [htake]
      simp only [stripRoot_take_lt _ _ _ hm]
    · rw [if_neg (by simp only [List.length_append]; omega), if_neg hk]

/-- C1: the path normalizer resolves a reference made of `k ≥ 1` leading
`../` segments followed by a suffix by popping `k` components from the
package document's directory (`dir` below, relative to the container
root given by the absolute, canonicalized epub path): if `k` exceeds the
directory depth the result is a `RealtiveLinkLeakage` error naming the
original reference, and otherwise the remaining suffix is joined to what
is left of the base directory.  In particular `../../x` from a base
directory one level deep fails with the leakage error, and `../x` from a
base directory two levels deep yields the one-level-up join `a/x`. -/
theorem C1 :
    (∀ (e dir : List String) (fname suffix : String) (k : Nat) (base : RPath),
      1 ≤ k →
      startsWithParentL suffix.toList = false →
      ((dir.length < k →
          normalize_manifest_path ⟨true, e⟩ ⟨false, dir ++ [fname]⟩ base
              (String.mk (parentChars k ++ suffix.toList)) =
            Except.error (EpubError.RealtiveLinkLeakage
              (String.mk (parentChars k ++ suffix.toList)))) ∧
        (k ≤ dir.length →
          normalize_manifest_path ⟨true, e⟩ ⟨false, dir ++ [fname]⟩ base
              (String.mk (parentChars k ++ suffix.toList)) =
            Except.ok (if (dir.take (dir.length - k)).isEmpty then suffix
              else String.intercalate "/" (dir.take (dir.length - k)) ++ "/" ++ suffix))))
    ∧ normalize_manifest_path ⟨true, ["home", "user", "book.epub"]⟩
        ⟨false, ["OEBPS", "content.opf"]⟩ ⟨false, ["OEBPS"]⟩ "../../x" =
        Except.error (EpubError.RealtiveLinkLeakage "../../x")
    ∧ normalize_manifest_path ⟨true, ["home", "user", "book.epub"]⟩
        ⟨false, ["a", "b", "c.opf"]⟩ ⟨false, ["a", "b"]⟩ "../x" =
        Except.ok "a/x" := by
  refine ⟨?_, by rfl, by rfl⟩
  intro e dir fname suffix k base hk hs
  have hsw : startsWithParentL
      (String.mk (parentChars k ++ suffix.toList)).toList = true := by
    obtain ⟨m, rfl⟩ : ∃ m, k = m + 1 := ⟨k - 1, by omega⟩
    rfl
  have hpop : (RPath.join ⟨true, e⟩ ⟨false, dir ++ [fname]⟩).popD
      = ⟨true, e ++ dir⟩ := by
    simp only [RPath.join, RPath.popD, if_neg (by simp : ¬ (false = true))]
    rw [show e ++ (dir ++ [fname]) = (e ++ dir) ++ [fname] by
      rw [List.append_assoc]]
    simp [List.dropLast_concat]
  simp only [normalize_manifest_path, hsw, if_true, hpop,
    check_link_general e dir k suffix hs]
  constructor
  · intro hlt
    rw [if_neg (by omega)]
  · intro hle
    rw [if_pos hle]

/-- Witness for C1 at concrete inputs: one `../` segment from a base
directory one level deep succeeds with the suffix itself. -/
theorem C1_witness :
    normalize_manifest_path ⟨true, ["root"]⟩ ⟨false, ["d", "pkg.opf"]⟩
        ⟨false, ["d"]⟩ (String.mk (parentChars 1 ++ "x".toList)) =
      Except.ok "x" := by
  have h := (C1.1 ["root"] ["d"] "pkg.opf" "x" 1 ⟨false, ["d"]⟩
    (by decide) (by decide)).2 (by decide)
  simpa using h

/-- XML element tree (`utils.rs`, `XmlElement`), restricted to the fields
the embedded operations read: local name, namespace prefix, attribute map
(an association list with unique keys, as the source's `HashMap`), own
text, and children.  The `namespace` and `cdata` fields are not consulted
by any operation embedded here and are omitted. -/
inductive XmlElement : Type where
  | mk : String → Option String → List (String × String) → Option String →
      List XmlElement → XmlElement

/-- Local element name. -/
def XmlElement.name : XmlElement → String
  | .mk n _ _ _ _ => n

/-- Namespace prefix, if any. -/
def XmlElement.prfx : XmlElement → Option String
  | .mk _ p _ _ _ => p

/-- Attribute association list. -/
def XmlElement.attributes : XmlElement → List (String × String)
  | .mk _ _ a _ _ => a

/-- Own text content, if any. -/
def XmlElement.ownText : XmlElement → Option String
  | .mk _ _ _ t _ => t

/-- Child elements. -/
def XmlElement.childrenL : XmlElement → List XmlElement
  | .mk _ _ _ _ c => c

/-- Method `XmlElement::tag_name`: `prefix:name` when a prefix is present. -/
def XmlElement.tagName (e : XmlElement) : String :=
  match e.prfx with
  | some p => p ++ ":" ++ e.name
  | none => e.name

/-- Method `XmlElement::get_attr`: lookup in the attribute map. -/
def XmlElement.getAttr (e : XmlElement) (attr : String) : Option String :=
  (e.attributes.find? (fun p => p.1 == attr)).map Prod.snd

mutual
/-- Method `XmlElement::text`: own text plus the (recursively trimmed) text of
every child, trimmed. -/
def XmlElement.textAll : XmlElement → String
  | .mk _ _ _ t children => ((t.getD "") ++ XmlElement.textAllList children).trim
/-- Concatenation of `XmlElement::text` over a child list. -/
def XmlElement.textAllList : List XmlElement → String
  | [] => ""
  | c :: cs => XmlElement.textAll c ++ XmlElement.textAllList cs
end

mutual
/-- The pre-order element collection used by
`XmlElement::find_elements_by_name` (`SearchElementsByNameIter`). -/
def XmlElement.collect : XmlElement → List XmlElement
  | .mk n p a t children =>
      XmlElement.mk n p a t children :: XmlElement.collectList children
/-- Pre-order collection over a list of elements. -/
def XmlElement.collectList : List XmlElement → List XmlElement
  | [] => []
  | c :: cs => XmlElement.collect c ++ XmlElement.collectList cs
end

/-- Method `XmlElement::find_elements_by_name`: all elements of the subtree (the
element itself included) with the given local name, in pre-order. -/
def XmlElement.findElementsByName (e : XmlElement) (nm : String) : List XmlElement :=
  (XmlElement.collect e).filter (fun el => el.name == nm)

/-- Trait method `NormalizeWhitespace::normalize_whitespace` (`utils.rs`): split on
whitespace, drop empty fragments, re-join with single spaces. -/
def normalizeWhitespace (s : String) : String :=
  String.intercalate " " ((s.split Char.isWhitespace).filter (fun w => w ≠ ""))

/-- Spine entry (`types.rs`, `SpineItem`). -/
structure SpineItem : Type where
  idref : String
  id : Option String
  linear : Bool
  properties : Option String
deriving DecidableEq, Repr

/-- Manifest entry (`types.rs`, `ManifestItem`); the normalized
container-root-relative path is kept as a string. -/
structure ManifestItem : Type where
  id : String
  path : String
  mime : String
  properties : Option String
  fallback : Option String
deriving DecidableEq, Repr

/-- Metadata refinement (`types.rs`, `MetadataRefinement`). -/
structure MetadataRefinement : Type where
  refines : String
  property : String
  value : String
  lang : Option String
  scheme : Option String
deriving DecidableEq, Repr

/-- Metadata entry (`types.rs`, `MetadataItem`). -/
structure MetadataItem : Type where
  id : Option String
  property : String
  value : String
  lang : Option String
  refined : List MetadataRefinement
deriving DecidableEq, Repr

/-- Source `epub.rs`, `EpubDoc::parse_spine`, applied to the children of the
`<spine>` element: `idref` is required (missing-attribute error),
`linear` is the attribute value compared against `"yes"` and defaults to
`true` when the attribute is absent, `id`/`properties` pass through. -/
def parse_spine : List XmlElement → Except EpubError (List SpineItem)
  | [] => Except.ok []
  | element :: rest =>
      match element.getAttr "idref" with
      | none =>
          Except.error (EpubError.MissingRequiredAttribute element.tagName "idref")
      | some idref =>
          let id := element.getAttr "id"
          let linear := ((element.getAttr "linear").map (fun l => l == "yes")).getD true
          let properties := element.getAttr "properties"
          match parse_spine rest with
          | Except.error err => Except.error err
          | Except.ok items =>
              Except.ok (SpineItem.mk idref id linear properties :: items)

/-- Source `epub.rs`, `EpubDoc::determine_epub_version`: an explicit version
attribute equal to `2.0`/`3.0` wins; otherwise a spine `toc` attribute
marks version 2.0; otherwise a manifest child with id exactly `nav`
marks version 3.0; otherwise the unrecognized-version error. -/
def determine_epub_version (opf_element : XmlElement) : Except EpubError EpubVersion :=
  let explicitV : Option EpubVersion :=
    match opf_element.getAttr "version" with
    | some v =>
        if v = "2.0" then some EpubVersion.Version2_0
        else if v = "3.0" then some EpubVersion.Version3_0
        else none
    | none => none
  match explicitV with
  | some v => Except.ok v
  | none =>
      match (opf_element.findElementsByName "spine").head? with
      | none => Except.error (EpubError.NonCanonicalFile "spine")
      | some spine_element =>
          if (spine_element.getAttr "toc").isSome then Except.ok EpubVersion.Version2_0
          else
            match (opf_element.findElementsByName "manifest").head? with
            | none => Except.error (EpubError.NonCanonicalFile "manifest")
            | some manifest_element =>
                match manifest_element.childrenL.findSome? (fun element =>
                    match element.getAttr "id" with
                    | some id => if id = "nav" then some EpubVersion.Version3_0 else none
                    | none => none) with
                | some v => Except.ok v
                | none => Except.error EpubError.UnrecognizedEpubVersion

/-- The navigation-document lookup of `epub.rs`, `EpubDoc::parse_catalog`
(version 3.0 arm): find the first manifest value whose `properties`
equals `"nav"` and return its path, else the non-canonical-publication
error.  The manifest `HashMap` is modeled as an association list whose
value order stands for the source's `values()` iteration order. -/
def parse_catalog_nav_path (manifest : List (String × ManifestItem)) :
    Except EpubError String :=
  match (manifest.map Prod.snd).find? (fun item =>
      match item.properties with
      | some property => property == "nav"
      | none => false) with
  | some item => Except.ok item.path
  | none => Except.error (EpubError.NonCanonicalEpub "Navigation Document")

/-- Element-wise construction of a list where evaluating the body may
panic: `none` models the panic propagating out of the iterator, which is
how `unwrap` inside a `map`-`collect` behaves in the source. -/
def mapPanic {A B : Type} (f : A → Option B) : List A → Option (List B)
  | [] => some []
  | a :: as =>
      match f a with
      | none => none
      | some b => (mapPanic f as).map (fun bs => b :: bs)

/-- Source `epub.rs`, `EpubDoc::parse_dc_metadata`: a Dublin Core element
becomes a metadata item; in version 2.0 every attribute of the element
becomes a refinement whose `refines` field is `id.clone().unwrap()`.
That unwrap panics when the element has no id; the panic is modeled as
`none` (the source otherwise returns `Ok`, modeled as `some`). -/
def parse_dc_metadata (version : EpubVersion) (element : XmlElement) :
    Option MetadataItem :=
  let id := element.getAttr "id"
  let lang := element.getAttr "lang"
  let property := element.name
  let value := normalizeWhitespace element.textAll
  let refinedOpt : Option (List MetadataRefinement) :=
    match version with
    | EpubVersion.Version2_0 =>
        mapPanic (fun p =>
          id.map (fun i => MetadataRefinement.mk i p.1 (normalizeWhitespace p.2) none none))
          element.attributes
    | EpubVersion.Version3_0 => some []
  refinedOpt.map (fun refined => MetadataItem.mk id property value lang refined)

/-- C6 counterexample: a spine item whose `linear` attribute is `"true"`
(a value other than `"no"`) is parsed as non-linear, refuting the claim
that only the explicit value `"no"` turns the flag off while any other
attribute value leaves the item linear. -/
theorem C6_cex :
    (XmlElement.mk "itemref" none [("idref", "a"), ("linear", "true")] none
        []).getAttr "linear" = some "true"
    ∧ parse_spine
        [XmlElement.mk "itemref" none [("idref", "a"), ("linear", "true")] none []]
      = Except.ok [SpineItem.mk "a" none false none] :=
  ⟨rfl, rfl⟩

/-- C6 amended: the `linear` flag defaults to `true` when the attribute
is absent and, when present, is `true` exactly for the value `"yes"`
(so `"no"` yields `false`, but so does every other non-`"yes"` value). -/
theorem C6_amended :
    ∀ (element : XmlElement) (rest : List XmlElement) (idref : String),
      element.getAttr "idref" = some idref →
      ((element.getAttr "linear" = none →
          parse_spine (element :: rest) =
            (parse_spine rest).map
              (fun items => SpineItem.mk idref (element.getAttr "id") true
                (element.getAttr "properties") :: items))
       ∧ (∀ v, element.getAttr "linear" = some v →
          parse_spine (element :: rest) =
            (parse_spine rest).map
              (fun items => SpineItem.mk idref (element.getAttr "id") (v == "yes")
                (element.getAttr "properties") :: items))) := by
  intro element rest idref hidref
  constructor
  · intro hlin
    cases hr : parse_spine rest with
    | error err => simp [parse_spine, hidref, hlin, hr, Except.map]
    | ok items => simp [parse_spine, hidref, hlin, hr, Except.map]
  · intro v hlin
    cases hr : parse_spine rest with
    | error err => simp [parse_spine, hidref, hlin, hr, Except.map]
    | ok items => simp [parse_spine, hidref, hlin, hr, Except.map]

/-- Witness for C6 amended: `linear="no"` parses as non-linear. -/
theorem C6_amended_witness :
    parse_spine
        [XmlElement.mk "itemref" none [("idref", "a"), ("linear", "no")] none []]
      = Except.ok [SpineItem.mk "a" none false none] := by
  have h := (C6_amended
    (XmlElement.mk "itemref" none [("idref", "a"), ("linear", "no")] none [])
    [] "a" rfl).2 "no" rfl
  simpa using h

/-- C7: version detection proceeds strictly in order: an explicit
`version` attribute equal to `"2.0"` or `"3.0"` decides outright; with no
recognized explicit version, a `toc` attribute on the (first) spine
element gives 2.0; failing that, a manifest child with id exactly `"nav"`
gives 3.0; and with neither signal (in particular with an unrecognized
explicit version value) detection fails with the unrecognized-version
error. -/
theorem C7 :
    ∀ opf_element : XmlElement,
      (opf_element.getAttr "version" = some "2.0" →
        determine_epub_version opf_element = Except.ok EpubVersion.Version2_0)
      ∧ (opf_element.getAttr "version" = some "3.0" →
        determine_epub_version opf_element = Except.ok EpubVersion.Version3_0)
      ∧ (∀ spine_element,
          (∀ v, opf_element.getAttr "version" = some v → v ≠ "2.0" ∧ v ≠ "3.0") →
          (opf_element.findElementsByName "spine").head? = some spine_element →
          (((spine_element.getAttr "toc").isSome →
            determine_epub_version opf_element = Except.ok EpubVersion.Version2_0)
          ∧ (∀ manifest_element,
              spine_element.getAttr "toc" = none →
              (opf_element.findElementsByName "manifest").head? = some manifest_element →
              (((∃ child ∈ manifest_element.childrenL,
                    child.getAttr "id" = some "nav") →
                determine_epub_version opf_element = Except.ok EpubVersion.Version3_0)
              ∧ ((∀ child ∈ manifest_element.childrenL,
                    ¬ child.getAttr "id" = some "nav") →
                determine_epub_version opf_element =
                  Except.error EpubError.UnrecognizedEpubVersion))))) := by
  intro opf_element
  refine ⟨?_, ?_, ?_⟩
  · intro h
    simp [determine_epub_version, h]
  · intro h
    simp [determine_epub_version, h]
  · intro spine_element hv hsp
    have hstep : ∀ (goal : Except EpubError EpubVersion),
        (match (opf_element.findElementsByName "spine").head? with
          | none => Except.error (EpubError.NonCanonicalFile "spine")
          | some spine_element =>
              if (spine_element.getAttr "toc").isSome then Except.ok EpubVersion.Version2_0
              else
                match (opf_element.findElementsByName "manifest").head? with
                | none => Except.error (EpubError.NonCanonicalFile "manifest")
                | some manifest_element =>
                    match manifest_element.childrenL.findSome? (fun element =>
                        match element.getAttr "id" with
                        | some id => if id = "nav" then some EpubVersion.Version3_0 else none
                        | none => none) with
                    | some v => Except.ok v
                    | none => Except.error EpubError.UnrecognizedEpubVersion) = goal →
        determine_epub_version opf_element = goal := by
      intro goal hgoal
      cases hvv : opf_element.getAttr "version" with
      | none => simpa [determine_epub_version, hvv] using hgoal
      | some v =>
          obtain ⟨h2, h3⟩ := hv v hvv
          simpa [determine_epub_version, hvv, h2, h3] using hgoal
    constructor
    · intro htoc
      exact hstep _ (by rw [hsp]; simp [htoc])
    · intro manifest_element htoc hm
      constructor
      · rintro ⟨child, hmem, hid⟩
        have hf : manifest_element.childrenL.findSome? (fun element =>
            match element.getAttr "id" with
            | some id => if id = "nav" then some EpubVersion.Version3_0 else none
            | none => none) = some EpubVersion.Version3_0 := by
          cases hfs : manifest_element.childrenL.findSome? (fun element =>
              match element.getAttr "id" with
              | some id => if id = "nav" then some EpubVersion.Version3_0 else none
              | none => none) with
          | none =>
              exfalso
              have := List.findSome?_eq_none_iff.mp hfs child hmem
              rw [hid] at this
              simp at this
          | some v =>
              obtain ⟨x, hx, hfx⟩ := List.exists_of_findSome?_eq_some hfs
              cases hxa : x.getAttr "id" with
              | none => rw [hxa] at hfx; simp at hfx
              | some idv =>
                  rw [hxa] at hfx
                  by_cases hnv : idv = "nav"
                  · simp only [hnv, if_pos] at hfx
                    simp [hfx]
                  · simp [hnv] at hfx
        exact hstep _ (by rw [hsp]; simp [htoc]; rw [hm]; simp [hf])
      · intro hall
        have hf : manifest_element.childrenL.findSome? (fun element =>
            match element.getAttr "id" with
            | some id => if id = "nav" then some EpubVersion.Version3_0 else none
            | none => none) = none := by
          rw [List.findSome?_eq_none_iff]
          intro x hx
          cases hxa : x.getAttr "id" with
          | none => simp
          | some idv =>
              by_cases hnv : idv = "nav"
              · exfalso
                exact hall x hx (by rw [hxa, hnv])
              · simp [hnv]
        exact hstep _ (by rw [hsp]; simp [htoc]; rw [hm]; simp [hf])

/-- Concrete package used by the C7 witness: no version attribute, a
spine without a `toc` attribute, a manifest whose only child has id
`item1`. -/
def c7manifest : XmlElement :=
  XmlElement.mk "manifest" none [] none
    [XmlElement.mk "item" none [("id", "item1")] none []]

/-- Spine element of the C7 witness package. -/
def c7spine : XmlElement := XmlElement.mk "spine" none [] none []

/-- The C7 witness package element. -/
def c7pkg : XmlElement :=
  XmlElement.mk "package" none [] none [c7manifest, c7spine]

/-- Witness for C7 at a concrete package: no version attribute, a spine
without a `toc` attribute, and a manifest with no child of id `nav`
yield the unrecognized-version error. -/
theorem C7_witness :
    determine_epub_version c7pkg = Except.error EpubError.UnrecognizedEpubVersion := by
  have h := (((C7 c7pkg).2.2 c7spine
    (by intro v hv; simp [c7pkg, XmlElement.getAttr, XmlElement.attributes] at hv)
    (by rfl)).2 c7manifest (by rfl) (by rfl)).2
  exact h (by decide)

/-- C8 counterexample: a manifest whose only item carries the properties
string `"nav scripted"` — whose space-separated token list includes
`"nav"` — is not located by the navigation-document lookup; the resolver
fails with the non-canonical-publication error, refuting the claim that
it fails exactly when no item's properties include `"nav"`. -/
theorem C8_cex :
    parse_catalog_nav_path
        [("nav", ManifestItem.mk "nav" "nav.xhtml" "application/xhtml+xml"
            (some "nav scripted") none)]
      = Except.error (EpubError.NonCanonicalEpub "Navigation Document") :=
  rfl

/-- C8 amended: the version-3.0 navigation lookup of `parse_catalog`
compares the whole properties string for equality with `"nav"`: it fails
with the non-canonical-publication error exactly when no manifest item
has `properties == Some("nav")` verbatim (an item whose properties carry
additional tokens besides `nav` is not found), and a successful lookup
returns the path of an item whose properties string is exactly `"nav"`. -/
theorem C8_amended :
    ∀ manifest : List (String × ManifestItem),
      (parse_catalog_nav_path manifest =
          Except.error (EpubError.NonCanonicalEpub "Navigation Document")
        ↔ ∀ pair ∈ manifest, pair.2.properties ≠ some "nav")
      ∧ (∀ path, parse_catalog_nav_path manifest = Except.ok path →
          ∃ pair ∈ manifest, pair.2.properties = some "nav" ∧ pair.2.path = path) := by
  intro manifest
  constructor
  · constructor
    · intro herr pair hmem hcon
      cases hf : (manifest.map Prod.snd).find? (fun item =>
          match item.properties with
          | some property => property == "nav"
          | none => false) with
      | some item => simp [parse_catalog_nav_path, hf] at herr
      | none =>
          have hnp := List.find?_eq_none.mp hf pair.2
            (List.mem_map_of_mem Prod.snd hmem)
          apply hnp
          rw [hcon]
          rfl
    · intro hall
      have hf : (manifest.map Prod.snd).find? (fun item =>
          match item.properties with
          | some property => property == "nav"
          | none => false) = none := by
        rw [List.find?_eq_none]
        intro item hmem hp
        obtain ⟨pair, hpair, rfl⟩ := List.mem_map.mp hmem
        cases hprop : pair.2.properties with
        | none => rw [hprop] at hp; simp at hp
        | some property =>
            rw [hprop] at hp
            simp at hp
            exact hall pair hpair (by rw [hprop, hp])
      simp [parse_catalog_nav_path, hf]
  · intro path hok
    cases hf : (manifest.map Prod.snd).find? (fun item =>
        match item.properties with
        | some property => property == "nav"
        | none => false) with
    | none => simp [parse_catalog_nav_path, hf] at hok
    | some item =>
        have hp := List.find?_some hf
        have hmem := List.mem_of_find?_eq_some hf
        obtain ⟨pair, hpair, rfl⟩ := List.mem_map.mp hmem
        have hprop : pair.2.properties = some "nav" := by
          cases hpp : pair.2.properties with
          | none => rw [hpp] at hp; simp at hp
          | some property => rw [hpp] at hp; simp at hp; rw [hp]
        have hpath : pair.2.path = path := by
          simp [parse_catalog_nav_path, hf] at hok
          exact hok
        exact ⟨pair, hpair, hprop, hpath⟩

/-- Witness for C8 amended: a manifest whose only item has properties
exactly `"nav"` does not produce the non-canonical error. -/
theorem C8_amended_witness :
    ¬ (parse_catalog_nav_path
        [("nav", ManifestItem.mk "nav" "nav.xhtml" "application/xhtml+xml"
            (some "nav") none)]
      = Except.error (EpubError.NonCanonicalEpub "Navigation Document")) := by
  intro hcon
  have h := ((C8_amended
    [("nav", ManifestItem.mk "nav" "nav.xhtml" "application/xhtml+xml"
        (some "nav") none)]).1.mp hcon)
    ("nav", ManifestItem.mk "nav" "nav.xhtml" "application/xhtml+xml"
        (some "nav") none)
    (by decide)
  exact h rfl

lemma mapPanic_const_none (β : Type) {α : Type} (l : List α) (hne : l ≠ []) :
    mapPanic (fun _ => (none : Option β)) l = none := by
  cases l with
  | nil => exact absurd rfl hne
  | cons a as => rfl

lemma mapPanic_some_map {α β : Type} (g : α → β) (l : List α) :
    mapPanic (fun a => some (g a)) l = some (l.map g) := by
  induction l with
  | nil => rfl
  | cons a as ih => simp [mapPanic, ih]

/-- C10: in version 2.0 parsing, a Dublin Core metadata element carrying
at least one attribute but no `id` attribute hits the
`id.clone().unwrap()` panic in the refinement construction (modeled as
`none`) instead of a typed error; under the precondition that an element
with attributes also has an id (or has no attributes at all), the unwrap
branch is unreachable and parsing returns normally (`some`). -/
theorem C10 :
    (∀ element : XmlElement,
      element.attributes ≠ [] →
      element.getAttr "id" = none →
      parse_dc_metadata EpubVersion.Version2_0 element = none)
    ∧ (∀ element : XmlElement,
      (element.attributes = [] ∨ (element.getAttr "id").isSome) →
      (parse_dc_metadata EpubVersion.Version2_0 element).isSome) := by
  constructor
  · intro element hne hid
    simp only [parse_dc_metadata, hid, Option.map_none']
    rw [mapPanic_const_none MetadataRefinement element.attributes hne]
    rfl
  · intro element h
    cases h with
    | inl hempty =>
        simp [parse_dc_metadata, hempty]
        rfl
    | inr hsome =>
        obtain ⟨i, hi⟩ := Option.isSome_iff_exists.mp hsome
        simp only [parse_dc_metadata, hi, Option.map_some']
        rw [mapPanic_some_map]
        rfl

/-- Witness for C10: a DC element with one attribute and no id panics
(`none`), while the same element with an id parses to `some`. -/
theorem C10_witness :
    parse_dc_metadata EpubVersion.Version2_0
        (XmlElement.mk "creator" none [("role", "aut")] (some "Alice") []) = none
    ∧ (parse_dc_metadata EpubVersion.Version2_0
        (XmlElement.mk "creator" none [("id", "c1"), ("role", "aut")]
          (some "Alice") [])).isSome :=
  ⟨C10.1 (XmlElement.mk "creator" none [("role", "aut")] (some "Alice") [])
      (by decide) rfl,
   C10.2 (XmlElement.mk "creator" none [("id", "c1"), ("role", "aut")]
      (some "Alice") []) (Or.inr rfl)⟩

/-- Lookup of `spine[index].linear` for the cursor machine; an out-of-bounds index
(which would panic in the source and is never reached by its callers) is
mapped to `false`. -/
def spineLinear (spine : List SpineItem) (i : Nat) : Bool :=
  match spine[i]? with
  | some item => item.linear
  | none => false

/-- Source `epub.rs`, `EpubDoc::navigate_by_spine_index`, as a cursor machine:
out-of-bounds fails, otherwise the cursor becomes `index` (the manifest
fetch of the addressed chapter is abstracted away; the source updates
`current_spine_index` exactly as modeled here). -/
def navigate_by_spine_index (spine : List SpineItem) (index : Nat) : Option Nat :=
  if index ≥ spine.length then none else some index

/-- Source `epub.rs`, `EpubDoc::spine_prev`, as a cursor machine.  The
outer `Option` distinguishes a panic (`none`) from a normal return
(`some r`, where `r` is the source's returned cursor with the manifest
fetch abstracted).  The source evaluates
`cur == 0 || !self.spine[cur].linear` left to right: at `cur = 0` it
returns `None` before indexing, and otherwise `self.spine[cur]` panics
exactly when `cur` is out of bounds; with the current entry in bounds
and linear it scans backwards (`(0..cur).rev()`, all indices in bounds)
for the nearest linear entry. -/
def spine_prev (spine : List SpineItem) (cur : Nat) : Option (Option Nat) :=
  if cur = 0 then some none
  else
    match spine[cur]? with
    | none => none
    | some item =>
        if ¬ item.linear then some none
        else some (((List.range cur).reverse).find?
          (fun index => spineLinear spine index))

/-- Source `epub.rs`, `EpubDoc::spine_next`, as a cursor machine.  The
outer `Option` distinguishes a panic (`none`) from a normal return
(`some r`).  On an empty spine the source panics: `self.spine.len() - 1`
underflows in a debug build, and in a release build it wraps so that the
guard fails and `self.spine[cur]` indexes the empty vector.  On a
non-empty spine the guard `cur >= len - 1 || !self.spine[cur].linear`
short-circuits, so indexing only happens at `cur < len - 1` and never
panics; when the guard fails it scans forwards (`cur+1..len`, all
indices in bounds) for the nearest linear entry. -/
def spine_next (spine : List SpineItem) (cur : Nat) : Option (Option Nat) :=
  match spine with
  | [] => none
  | a :: rest =>
      if cur ≥ (a :: rest).length - 1 ∨ ¬ spineLinear (a :: rest) cur then some none
      else some ((List.range' (cur + 1) ((a :: rest).length - (cur + 1))).find?
        (fun index => spineLinear (a :: rest) index))

lemma find?_range'_eq_some (p : Nat → Bool) (s n j : Nat) :
    (List.range' s n).find? p = some j ↔
      (p j = true ∧ s ≤ j ∧ j < s + n ∧ ∀ m, s ≤ m → m < j → p m = false) := by
  induction n generalizing s with
  | zero =>
      simp only [List.range']
      constructor
      · intro h
        simp at h
      · rintro ⟨_, h1, h2, _⟩
        omega
  | succ n ih =>
      rw [List.range'_succ]
      by_cases hps : p s = true
      · rw [List.find?_cons_of_pos _ hps]
        constructor
        · intro h
          obtain rfl : s = j := by simpa using h
          exact ⟨hps, Nat.le_refl _, by omega, fun m h1 h2 => by omega⟩
        · rintro ⟨hpj, hsj, hjn, hmin⟩
          rcases Nat.eq_or_lt_of_le hsj with rfl | hlt
          · rfl
          · exact absurd hps (by simp [hmin s (Nat.le_refl s) hlt])
      · rw [List.find?_cons_of_neg _ (by simp [hps])]
        rw [ih (s + 1)]
        constructor
        · rintro ⟨hpj, hsj, hjn, hmin⟩
          refine ⟨hpj, by omega, by omega, ?_⟩
          intro m h1 h2
          rcases Nat.eq_or_lt_of_le h1 with rfl | hlt
          · exact Bool.not_eq_true _ |>.mp hps
          · exact hmin m hlt h2
        · rintro ⟨hpj, hsj, hjn, hmin⟩
          have hne : j ≠ s := by
            intro hcon
            rw [hcon] at hpj
            exact hps hpj
          refine ⟨hpj, by omega, by omega, ?_⟩
          intro m h1 h2
          exact hmin m (by omega) h2

lemma find?_range'_eq_none (p : Nat → Bool) (s n : Nat) :
    (List.range' s n).find? p = none ↔
      (∀ m, s ≤ m → m < s + n → p m = false) := by
  rw [List.find?_eq_none]
  constructor
  · intro h m h1 h2
    have := h m (by simp [List.mem_range'_1]; omega)
    simpa using this
  · intro h m hmem
    have hb := List.mem_range'_1.mp hmem
    simp [h m hb.1 hb.2]

lemma find?_revRange_eq_some (p : Nat → Bool) (n j : Nat) :
    ((List.range n).reverse).find? p = some j ↔
      (p j = true ∧ j < n ∧ ∀ m, j < m → m < n → p m = false) := by
  induction n with
  | zero =>
      constructor
      · intro h
        simp at h
      · rintro ⟨_, h1, _⟩
        omega
  | succ n ih =>
      rw [List.range_succ, List.reverse_append]
      simp only [List.reverse_singleton, List.singleton_append]
      by_cases hpn : p n = true
      · rw [List.find?_cons_of_pos _ hpn]
        constructor
        · intro h
          obtain rfl : n = j := by simpa using h
          exact ⟨hpn, by omega, fun m h1 h2 => by omega⟩
        · rintro ⟨hpj, hjn, hmin⟩
          rcases Nat.lt_succ_iff_lt_or_eq.mp hjn with hlt | rfl
          · exact absurd hpn (by simp [hmin n hlt (Nat.lt_succ_self n)])
          · rfl
      · rw [List.find?_cons_of_neg _ (by simp [hpn])]
        rw [ih]
        constructor
        · rintro ⟨hpj, hjn, hmin⟩
          refine ⟨hpj, by omega, ?_⟩
          intro m h1 h2
          rcases Nat.lt_succ_iff_lt_or_eq.mp h2 with hlt | rfl
          · exact hmin m h1 hlt
          · exact Bool.not_eq_true _ |>.mp hpn
        · rintro ⟨hpj, hjn, hmin⟩
          have hne : j ≠ n := by
            intro hcon
            rw [hcon] at hpj
            exact hpn hpj
          refine ⟨hpj, by omega, ?_⟩
          intro m h1 h2
          exact hmin m h1 (by omega)

/-- The claim's concrete spine: A(linear), B(linear), C(non-linear),
D(linear). -/
def spineABCD : List SpineItem :=
  [SpineItem.mk "A" none true none, SpineItem.mk "B" none true none,
   SpineItem.mk "C" none false none, SpineItem.mk "D" none true none]

/-- C5: the spine cursor machine.  In `spine_prev`/`spine_next` results,
the outer `Option` separates panics (`none`) from normal returns
(`some r`): on an empty spine `spine_next` panics (`len() - 1`
underflow), which the claim's scenario never reaches.  `navigate` is an
absolute jump failing exactly on out-of-bounds indices; `next`/`prev`
return empty (`some none`) at the corresponding boundary or when the
current in-bounds entry is non-linear, and otherwise move the cursor to
the nearest following (respectively preceding) entry with
`linear = true`, skipping non-linear entries and returning empty when
none exists; the panic inputs are characterized exactly; and the
claim's concrete scenario on [A(linear), B(linear), C(non-linear),
D(linear)] behaves as stated. -/
theorem C5 :
    (∀ (spine : List SpineItem) (index : Nat),
        (index < spine.length → navigate_by_spine_index spine index = some index)
        ∧ (spine.length ≤ index → navigate_by_spine_index spine index = none))
    ∧ (∀ (spine : List SpineItem) (cur : Nat),
        (cur = 0 → spine_prev spine cur = some none)
        ∧ (cur < spine.length → spineLinear spine cur = false →
            spine_prev spine cur = some none)
        ∧ (spine ≠ [] →
            (spine.length - 1 ≤ cur ∨ spineLinear spine cur = false) →
            spine_next spine cur = some none)
        ∧ (spine_next spine cur = none ↔ spine = [])
        ∧ (spine_prev spine cur = none ↔ (cur ≠ 0 ∧ spine.length ≤ cur)))
    ∧ (∀ (spine : List SpineItem) (cur j : Nat),
        spine_next spine cur = some (some j) ↔
          (cur < spine.length - 1 ∧ spineLinear spine cur = true ∧
            cur < j ∧ j < spine.length ∧ spineLinear spine j = true ∧
            ∀ m, cur < m → m < j → spineLinear spine m = false))
    ∧ (∀ (spine : List SpineItem) (cur j : Nat),
        spine_prev spine cur = some (some j) ↔
          (cur ≠ 0 ∧ spineLinear spine cur = true ∧
            j < cur ∧ spineLinear spine j = true ∧
            ∀ m, j < m → m < cur → spineLinear spine m = false))
    ∧ (spine_next spineABCD 0 = some (some 1)
        ∧ spine_next spineABCD 1 = some (some 3)
        ∧ spine_next spineABCD 3 = some none
        ∧ navigate_by_spine_index spineABCD 2 = some 2
        ∧ spine_next spineABCD 2 = some none
        ∧ spine_prev spineABCD 2 = some none) := by
  refine ⟨?_, ?_, ?_, ?_, by decide⟩
  · intro spine index
    constructor
    · intro h
      simp [navigate_by_spine_index, Nat.not_le.mpr h]
    · intro h
      simp [navigate_by_spine_index, h]
  · intro spine cur
    refine ⟨?_, ?_, ?_, ?_, ?_⟩
    · intro h
      simp [spine_prev, h]
    · intro hlt hlin
      by_cases hc0 : cur = 0
      · simp [spine_prev, hc0]
      · have hitem : spine[cur]? = some spine[cur] := List.getElem?_eq_getElem hlt
        have hfalse : spine[cur].linear = false := by
          have h2 := hlin
          unfold spineLinear at h2
          rw [hitem] at h2
          exact h2
        simp [spine_prev, hc0, hitem, hfalse]
    · intro hne hdis
      cases spine with
      | nil => exact absurd rfl hne
      | cons a rest =>
          have hg : cur ≥ (a :: rest).length - 1 ∨ ¬ spineLinear (a :: rest) cur := by
            rcases hdis with h | h
            · exact Or.inl h
            · exact Or.inr (by simp [h])
          rw [spine_next, if_pos hg]
    · cases spine with
      | nil => simp [spine_next]
      | cons a rest =>
          constructor
          · intro h
            by_cases hg : cur ≥ (a :: rest).length - 1 ∨ ¬ spineLinear (a :: rest) cur
            · rw [show spine_next (a :: rest) cur = some none from by
                rw [spine_next, if_pos hg]] at h
              exact absurd h (by simp)
            · rw [show spine_next (a :: rest) cur =
                  some ((List.range' (cur + 1) ((a :: rest).length - (cur + 1))).find?
                    (fun index => spineLinear (a :: rest) index)) from by
                rw [spine_next, if_neg hg]] at h
              exact absurd h (by simp)
          · intro h
            exact absurd h (by simp)
    · by_cases hc0 : cur = 0
      · simp [spine_prev, hc0]
      · cases hcur : spine[cur]? with
        | none =>
            have hlen : spine.length ≤ cur := List.getElem?_eq_none_iff.mp hcur
            simp [spine_prev, hc0, hcur, hlen]
        | some item =>
            have hlt : cur < spine.length := by
              by_contra hcon
              rw [List.getElem?_eq_none (by omega)] at hcur
              exact absurd hcur (by simp)
            by_cases hl : item.linear
            · simp only [spine_prev, hc0, hcur, hl]
              simp
              omega
            · simp only [spine_prev, hc0, hcur, hl]
              simp
              omega
  · intro spine cur j
    cases spine with
    | nil =>
        constructor
        · intro h
          exact absurd h (by simp [spine_next])
        · rintro ⟨h1, _⟩
          simp at h1
    | cons a rest =>
        by_cases hg : cur ≥ (a :: rest).length - 1 ∨ ¬ spineLinear (a :: rest) cur
        · rw [show spine_next (a :: rest) cur = some none from by
            rw [spine_next, if_pos hg]]
          constructor
          · intro h
            exact absurd h (by simp)
          · rintro ⟨h1, h2, _⟩
            rcases hg with hg | hg
            · omega
            · exact absurd h2 hg
        · obtain ⟨hg1, hg2⟩ := not_or.mp hg
          have hg1n : cur < (a :: rest).length - 1 := Nat.lt_of_not_le hg1
          have hg2n : spineLinear (a :: rest) cur = true := not_not.mp hg2
          rw [show spine_next (a :: rest) cur =
              some ((List.range' (cur + 1) ((a :: rest).length - (cur + 1))).find?
                (fun index => spineLinear (a :: rest) index)) from by
            rw [spine_next, if_neg hg]]
          simp only [Option.some.injEq]
          rw [find?_range'_eq_some]
          constructor
          · rintro ⟨hpj, hsj, hjn, hmin⟩
            refine ⟨hg1n, hg2n, by omega, by omega, hpj, ?_⟩
            intro m h1 h2
            exact hmin m (by omega) h2
          · rintro ⟨_, _, hcj, hjl, hpj, hmin⟩
            refine ⟨hpj, by omega, by omega, ?_⟩
            intro m h1 h2
            exact hmin m (by omega) h2
  · intro spine cur j
    by_cases hc0 : cur = 0
    · simp [spine_prev, hc0]
    · cases hcur : spine[cur]? with
      | none =>
          have hlin : spineLinear spine cur = false := by
            unfold spineLinear
            rw [hcur]
          simp [spine_prev, hc0, hcur, hlin]
      | some item =>
          have hlin : spineLinear spine cur = item.linear := by
            unfold spineLinear
            rw [hcur]
          by_cases hl : item.linear
          · rw [show spine_prev spine cur =
                some (((List.range cur).reverse).find?
                  (fun index => spineLinear spine index)) from by
              simp [spine_prev, hc0, hcur, hl]]
            simp only [Option.some.injEq]
            rw [find?_revRange_eq_some]
            constructor
            · rintro ⟨hpj, hjc, hmin⟩
              exact ⟨hc0, by rw [hlin]; exact hl, hjc, hpj, hmin⟩
            · rintro ⟨_, _, hjc, hpj, hmin⟩
              exact ⟨hpj, hjc, hmin⟩
          · have hlin' : spineLinear spine cur = false := by
              rw [hlin]
              simpa using hl
            rw [show spine_prev spine cur = some none from by
              simp [spine_prev, hc0, hcur, hl]]
            constructor
            · intro h
              exact absurd h (by simp)
            · rintro ⟨_, h2, _⟩
              rw [hlin'] at h2
              exact absurd h2 (by simp)

/-- Witness for C5: navigating to index 2 of the concrete spine is an
in-bounds absolute jump. -/
theorem C5_witness :
    navigate_by_spine_index spineABCD 2 = some 2 :=
  (C5.1 spineABCD 2).1 (by decide)

/-- Rust `HashMap::get` on the manifest, modeled over the association list. -/
def manifestGet (manifest : List (String × ManifestItem)) (id : String) :
    Option ManifestItem :=
  (manifest.find? (fun p => p.1 == id)).map Prod.snd

/-- Rust `HashMap::contains_key` on the manifest. -/
def manifestContainsKey (manifest : List (String × ManifestItem)) (id : String) : Bool :=
  (manifest.find? (fun p => p.1 == id)).isSome

/-- Source `epub.rs`, `EpubDoc::validate_fallback_chain`: walk the fallback
links keeping the visited ids in traversal order; a revisited id is
pushed and the chain joined with `->` into the circular-reference
message; a fallback id missing from the manifest is the
missing-fallback-target message; an item with no fallback ends the chain
successfully.  The source recursion is bounded by the visited chain
growing inside the finite manifest; the explicit fuel (callers pass
`manifest.length + 1`, which the chain length can never reach) makes the
same recursion structural. -/
def EpubDoc.validate_fallback_chain (manifest : List (String × ManifestItem)) :
    Nat → String → List String → Except String Unit
  | 0, _, _ => Except.error "recursion fuel exhausted"
  | fuel + 1, manifest_id, fallback_chain =>
      if fallback_chain.contains manifest_id then
        Except.error ("Circular reference detected in fallback chain for "
          ++ String.intercalate "->" (fallback_chain ++ [manifest_id]))
      else
        match manifestGet manifest manifest_id with
        | none => Except.error "manifest id not present (the source unwrap panics)"
        | some item =>
            match item.fallback with
            | some fallback_id =>
                if manifestContainsKey manifest fallback_id then
                  EpubDoc.validate_fallback_chain manifest fuel fallback_id
                    (fallback_chain ++ [manifest_id])
                else
                  Except.error ("Fallback resource " ++ fallback_id
                    ++ " does not exist in manifest")
            | none => Except.ok ()

/-- Source `epub.rs`, `EpubDoc::validate_fallback_chains`, invoked while reading
a publication: every fallback-bearing item starts a chain walk, and each
failure is downgraded to one log warning for the offending item
(`warn!("Invalid fallback chain for item {}: {}", id, msg)`); the result
is the list of warnings in manifest iteration order — reading never
aborts on a fallback failure. -/
def EpubDoc.validate_fallback_chains (manifest : List (String × ManifestItem)) :
    List String :=
  manifest.flatMap (fun pair =>
    match pair.2.fallback with
    | none => []
    | some _ =>
        match EpubDoc.validate_fallback_chain manifest (manifest.length + 1) pair.1 [] with
        | Except.error msg =>
            ["Invalid fallback chain for item " ++ pair.1 ++ ": " ++ msg]
        | Except.ok _ => [])

/-- Source `builder.rs`, `EpubBuilder::validate_fallback_chain`: the identical
walk with typed errors (`ManifestCircularReference` carrying the visited
chain joined by `->`, `ManifestNotFound` for a missing target). -/
def EpubBuilder.validate_fallback_chain (manifest : List (String × ManifestItem)) :
    Nat → String → List String → Except EpubError Unit
  | 0, _, _ => Except.error (EpubError.NonCanonicalEpub "recursion fuel exhausted")
  | fuel + 1, manifest_id, fallback_chain =>
      if fallback_chain.contains manifest_id then
        Except.error (EpubError.EpubBuilderError
          (EpubBuilderError.ManifestCircularReference
            (String.intercalate "->" (fallback_chain ++ [manifest_id]))))
      else
        match manifestGet manifest manifest_id with
        | none =>
            Except.error (EpubError.NonCanonicalEpub
              "manifest id not present (the source unwrap panics)")
        | some item =>
            match item.fallback with
            | some fallback_id =>
                if manifestContainsKey manifest fallback_id then
                  EpubBuilder.validate_fallback_chain manifest fuel fallback_id
                    (fallback_chain ++ [manifest_id])
                else
                  Except.error (EpubError.EpubBuilderError
                    (EpubBuilderError.ManifestNotFound fallback_id))
            | none => Except.ok ()

/-- Iteration of `EpubBuilder::validate_manifest_fallback_chains` over
the remaining manifest entries: the first failing chain aborts (the `?`
operator propagates the error out of the builder's finalize). -/
def EpubBuilder.validate_manifest_fallback_chains_go
    (manifest : List (String × ManifestItem)) :
    List (String × ManifestItem) → Except EpubError Unit
  | [] => Except.ok ()
  | pair :: rest =>
      match pair.2.fallback with
      | none => EpubBuilder.validate_manifest_fallback_chains_go manifest rest
      | some _ =>
          match EpubBuilder.validate_fallback_chain manifest
              (manifest.length + 1) pair.1 [] with
          | Except.error err => Except.error err
          | Except.ok _ =>
              EpubBuilder.validate_manifest_fallback_chains_go manifest rest

/-- Source `builder.rs`, `EpubBuilder::validate_manifest_fallback_chains`,
invoked from `make_opf_file` during the builder's finalize: any chain
failure aborts the build. -/
def EpubBuilder.validate_manifest_fallback_chains
    (manifest : List (String × ManifestItem)) : Except EpubError Unit :=
  EpubBuilder.validate_manifest_fallback_chains_go manifest manifest

/-- The claim's cyclic manifest: a → b, b → a. -/
def manifestAB : List (String × ManifestItem) :=
  [("a", ManifestItem.mk "a" "a.xhtml" "application/xhtml+xml" none (some "b")),
   ("b", ManifestItem.mk "b" "b.xhtml" "application/xhtml+xml" none (some "a"))]

/-- The claim's acyclic manifest: a → b, b → c, c terminal. -/
def manifestABC : List (String × ManifestItem) :=
  [("a", ManifestItem.mk "a" "a.xhtml" "application/xhtml+xml" none (some "b")),
   ("b", ManifestItem.mk "b" "b.xhtml" "application/xhtml+xml" none (some "c")),
   ("c", ManifestItem.mk "c" "c.xhtml" "application/xhtml+xml" none none)]

/-- C4: walking a fallback chain keeps the visited ids in traversal
order and, on revisiting an id, fails with a circular-reference error
whose message is the visited chain joined by `->`: on the manifest
{a→b, b→a} the builder's finalize-time validation aborts with the
`ManifestCircularReference` error carrying exactly `a->b->a`, while the
read-side validation returns (never aborts) with one log warning per
offending item, each containing the chain message; on {a→b, b→c,
c terminal} the builder validation accepts and the read-side validation
produces no warnings. -/
theorem C4 :
    EpubBuilder.validate_manifest_fallback_chains manifestAB =
      Except.error (EpubError.EpubBuilderError
        (EpubBuilderError.ManifestCircularReference "a->b->a"))
    ∧ EpubDoc.validate_fallback_chains manifestAB =
      ["Invalid fallback chain for item a: Circular reference detected in fallback chain for a->b->a",
       "Invalid fallback chain for item b: Circular reference detected in fallback chain for b->a->b"]
    ∧ EpubBuilder.validate_manifest_fallback_chains manifestABC = Except.ok ()
    ∧ EpubDoc.validate_fallback_chains manifestABC = [] :=
  ⟨rfl, rfl, rfl, rfl⟩

/-- ZIP entry compression modes used by this code base
(`zip::CompressionMethod`, restricted to the two the sources mention). -/
inductive CompressionMethod : Type where
  | Stored : CompressionMethod
  | Deflated : CompressionMethod
deriving DecidableEq, Repr

/-- One entry yielded by the `WalkDir` traversal of the staging
workspace in `EpubBuilder::make`, identified by its path relative to the
temp directory. -/
inductive WalkEntry : Type where
  | file : String → WalkEntry
  | dir : String → WalkEntry
deriving DecidableEq, Repr

/-- Relative path of a walk entry. -/
def WalkEntry.path : WalkEntry → String
  | .file p => p
  | .dir p => p

/-- The archive-packing loop of `builder.rs`, `EpubBuilder::make`: a
single `FileOptions` value with `compression_method(Stored)` is created
before the loop, and every traversal entry is written with those options
(`start_file` for files, `add_directory` for directories), in traversal
order.  The result records, per entry, the path and compression method
handed to the ZIP writer. -/
def make_pack_entries (walk : List WalkEntry) : List (String × CompressionMethod) :=
  walk.map (fun entry =>
    match entry with
    | WalkEntry.file p => (p, CompressionMethod.Stored)
    | WalkEntry.dir p => (p, CompressionMethod.Stored))

/-- A possible traversal of the staging workspace (WalkDir yields the
root first but sibling order is unspecified). -/
def c3walk : List WalkEntry :=
  [WalkEntry.dir "", WalkEntry.dir "META-INF",
   WalkEntry.file "META-INF/container.xml", WalkEntry.file "mimetype",
   WalkEntry.file "chapter.xhtml"]

/-- C3 counterexample: on a workspace holding `mimetype` and a chapter,
every entry — the chapter included — is handed to the ZIP writer with
`Stored` compression, and no entry is `Deflated`; moreover the entries
are written in plain traversal order, so `mimetype` is not first in this
(legal) traversal.  This refutes both halves of the claim: the non-
`mimetype` entries are not deflated, and the `mimetype` entry is not
forced to be written first. -/
theorem C3_cex :
    make_pack_entries c3walk =
      [("", CompressionMethod.Stored), ("META-INF", CompressionMethod.Stored),
       ("META-INF/container.xml", CompressionMethod.Stored),
       ("mimetype", CompressionMethod.Stored),
       ("chapter.xhtml", CompressionMethod.Stored)]
    ∧ ("chapter.xhtml", CompressionMethod.Deflated) ∉ make_pack_entries c3walk
    ∧ (make_pack_entries c3walk).head? ≠
        some ("mimetype", CompressionMethod.Stored) := by
  refine ⟨rfl, ?_, ?_⟩
  · decide
  · decide

/-- C3 amended: the builder's finalize streams the staging workspace
into the archive in traversal order, writing every entry — `mimetype`
and the rest alike — with `Stored` (uncompressed) compression; no entry
is deflated and the `mimetype` entry receives no special ordering. -/
theorem C3_amended :
    ∀ walk : List WalkEntry,
      (make_pack_entries walk).map Prod.snd =
        List.replicate walk.length CompressionMethod.Stored
      ∧ (make_pack_entries walk).map Prod.fst = walk.map WalkEntry.path := by
  intro walk
  induction walk with
  | nil => exact ⟨rfl, rfl⟩
  | cons e rest ih =>
      cases e with
      | file p =>
          exact ⟨by simpa [make_pack_entries, List.replicate_succ] using ih.1,
            by simpa [make_pack_entries, WalkEntry.path] using ih.2⟩
      | dir p =>
          exact ⟨by simpa [make_pack_entries, List.replicate_succ] using ih.1,
            by simpa [make_pack_entries, WalkEntry.path] using ih.2⟩
